import Mathlib

/-!
Verification of the double-pendulum phase-map core of the repository:
`pendulums.py` (physical constants, ODE right-hand side, trajectory
sampling, flip detection, sequential grid builder) and
`multiprocessing_res_map.py` (row-parallel grid builder).

Modelling conventions:
* Python floats are modelled as real numbers `ℝ`; `np.pi` is `Real.pi`.
* `scipy.integrate.odeint` is third-party code, abstracted as a parameter
  `ode : OdeSolver` mapping (right-hand side, initial state, sample times,
  constants) to the list of sampled states, one per sample time.
* Python `int(x)` on a float truncates toward zero; this is `pytrunc`.
* `multiprocessing.Pool.map` is modelled by its contract: results in task
  order (`List.map`), and, in the fallible model `mapE`, propagation of a
  failing task's exception with no partial result.
-/

/-- The `Constants` dataclass of `pendulums.py`:
fields `g, l1, l2, m1, m2, T_final` in declaration order. -/
structure Constants where
  g : ℝ
  l1 : ℝ
  l2 : ℝ
  m1 : ℝ
  m2 : ℝ
  T_final : ℝ

/-- `Constants.__iter__` yields `self.__dict__.values()`; in CPython the
instance dict of a dataclass holds the fields in declaration order, so the
iterator yields `g, l1, l2, m1, m2, T_final`. -/
def Constants.iter (c : Constants) : List ℝ :=
  [c.g, c.l1, c.l2, c.m1, c.m2, c.T_final]

/-- The dataclass defaults: `g=9.8, l1=l2=m1=m2=1, T_final=10`. -/
noncomputable def defaultConstants : Constants := ⟨9.8, 1, 1, 1, 1, 10⟩

/-- Python `int()` applied to a real number: truncation toward zero. -/
noncomputable def pytrunc (x : ℝ) : ℤ :=
  if 0 ≤ x then ⌊x⌋ else ⌈x⌉

/-- The repeated subexpression `2*m1+m2-m2*cos(2*th1-2*th2)` of both
denominators in `right_hand_side`, with `m1, m2` read off the iterator of
`cnst` exactly as the destructuring assignment
`g, l1, l2, m1, m2, _ = cnst` does. -/
noncomputable def denomCommon (y : Fin 4 → ℝ) (cnst : Constants) : ℝ :=
  2 * cnst.iter.getD 3 0 + cnst.iter.getD 4 0 -
    cnst.iter.getD 4 0 * Real.cos (2 * y 0 - 2 * y 1)

/-- The denominator `l1*(2*m1+m2-m2*cos(2*th1-2*th2))` of `dydt[2]`. -/
noncomputable def denom1 (y : Fin 4 → ℝ) (cnst : Constants) : ℝ :=
  cnst.iter.getD 1 0 * denomCommon y cnst

/-- The denominator `l2*(2*m1+m2-m2*cos(2*th1-2*th2))` of `dydt[3]`. -/
noncomputable def denom2 (y : Fin 4 → ℝ) (cnst : Constants) : ℝ :=
  cnst.iter.getD 2 0 * denomCommon y cnst

/-- `right_hand_side(y, t, cnst)` from `pendulums.py`.  The state is
`y = (th1, th2, om1, om2)`; the constants are destructured from the
iterator of `cnst` (`g, l1, l2, m1, m2, _ = cnst`). -/
noncomputable def right_hand_side (y : Fin 4 → ℝ) (t : ℝ) (cnst : Constants) :
    Fin 4 → ℝ :=
  let g := cnst.iter.getD 0 0
  let l1 := cnst.iter.getD 1 0
  let l2 := cnst.iter.getD 2 0
  let m1 := cnst.iter.getD 3 0
  let m2 := cnst.iter.getD 4 0
  ![y 2,
    y 3,
    (-g * (2 * m1 + m2) * Real.sin (y 0) - m2 * g * Real.sin (y 0 - 2 * y 1) -
        2 * Real.sin (y 0 - y 1) * m2 *
          ((y 3) ^ 2 * l2 + (y 2) ^ 2 * l1 * Real.cos (y 0 - y 1))) /
      denom1 y cnst,
    (2 * Real.sin (y 0 - y 1) *
        ((y 2) ^ 2 * l1 * (m1 + m2) + g * (m1 + m2) * Real.cos (y 0) +
          (y 3) ^ 2 * l2 * m2 * Real.cos (y 0 - y 1))) /
      denom2 y cnst]

/-- Modelled from the spec: the intended reading of the destructuring
`g, l1, l2, m1, m2, _ = cnst` — each physical constant bound directly to
the field of the same name (the commented-out line in `Constants.__iter__`
spells out this order).  Compared with `right_hand_side` for claim C10. -/
noncomputable def right_hand_side_by_fields (y : Fin 4 → ℝ) (t : ℝ)
    (cnst : Constants) : Fin 4 → ℝ :=
  ![y 2,
    y 3,
    (-cnst.g * (2 * cnst.m1 + cnst.m2) * Real.sin (y 0) -
        cnst.m2 * cnst.g * Real.sin (y 0 - 2 * y 1) -
        2 * Real.sin (y 0 - y 1) * cnst.m2 *
          ((y 3) ^ 2 * cnst.l2 + (y 2) ^ 2 * cnst.l1 * Real.cos (y 0 - y 1))) /
      (cnst.l1 *
        (2 * cnst.m1 + cnst.m2 - cnst.m2 * Real.cos (2 * y 0 - 2 * y 1))),
    (2 * Real.sin (y 0 - y 1) *
        ((y 2) ^ 2 * cnst.l1 * (cnst.m1 + cnst.m2) +
          cnst.g * (cnst.m1 + cnst.m2) * Real.cos (y 0) +
          (y 3) ^ 2 * cnst.l2 * cnst.m2 * Real.cos (y 0 - y 1))) /
      (cnst.l2 *
        (2 * cnst.m1 + cnst.m2 - cnst.m2 * Real.cos (2 * y 0 - 2 * y 1)))]

/-- `np.linspace(a, b, n)`: `n` points `a + i*(b-a)/(n-1)`. -/
noncomputable def linspace (a b : ℝ) (n : ℕ) : List ℝ :=
  (List.range n).map fun i : ℕ => a + (i : ℝ) * (b - a) / ((n : ℝ) - 1)

/-- The shape of `scipy.integrate.odeint` as used in `get_solution`:
takes the right-hand side, the initial state, the list of sample times and
the extra argument `cnst`, and returns one sampled state per sample time. -/
def OdeSolver : Type :=
  ((Fin 4 → ℝ) → ℝ → Constants → (Fin 4 → ℝ)) → (Fin 4 → ℝ) → List ℝ →
    Constants → List (Fin 4 → ℝ)

/-- `get_solution(init_theta1, init_theta2, cnst)`:
`t = np.linspace(0, cnst.T_final, 201)`, `y0 = [th1, th2, 0, 0]`,
`sol = odeint(right_hand_side, y0, t, args=(cnst,))`; returns `(t, sol)`. -/
noncomputable def get_solution (ode : OdeSolver) (init_theta1 init_theta2 : ℝ)
    (cnst : Constants) : List ℝ × List (Fin 4 → ℝ) :=
  let t := linspace 0 cnst.T_final 201
  (t, ode right_hand_side ![init_theta1, init_theta2, 0, 0] t cnst)

/-- `get_flip_points(times, theta2_angles)` from `pendulums.py`: walk
`zip(theta2_angles[:-1], theta2_angles[1:])` with its index `i`, and record
`times[i]` whenever `int(t1/np.pi) != int(t2/np.pi)` and
`int(t1/np.pi) % 2 == 0`.  `times.getD i 0` models `times[i]`, which is in
range whenever the two series have matching lengths. -/
noncomputable def get_flip_points (times : List ℝ) (theta2_angles : List ℝ) :
    List ℝ :=
  (theta2_angles.dropLast.zip theta2_angles.tail).enum.filterMap fun p =>
    if pytrunc (p.2.1 / Real.pi) ≠ pytrunc (p.2.2 / Real.pi) ∧
        pytrunc (p.2.1 / Real.pi) % 2 = 0 then
      some (times.getD p.1 0)
    else none

/-- The flip condition of `get_flip_points` at consecutive-pair index `k`
of a `theta2` series, expressed through positions: Python `int()`
truncation of `theta2[k]/π` and `theta2[k+1]/π` differ, and the former is
even. -/
def flipAt (theta2_angles : List ℝ) (k : ℕ) : Prop :=
  pytrunc (theta2_angles.getD k 0 / Real.pi) ≠
      pytrunc (theta2_angles.getD (k + 1) 0 / Real.pi) ∧
    pytrunc (theta2_angles.getD k 0 / Real.pi) % 2 = 0

noncomputable instance (l : List ℝ) (k : ℕ) : Decidable (flipAt l k) := by
  unfold flipAt
  infer_instance

/-- The consecutive-pair indices at which `get_flip_points` records a
flip. -/
noncomputable def flipIndices (theta2_angles : List ℝ) : List ℕ :=
  (List.range (theta2_angles.length - 1)).filter fun k =>
    decide (flipAt theta2_angles k)

/-- The flip rule exactly as claim C1 words it, with mathematical `floor`
in place of the code's `int()` truncation. -/
def floorFlipAt (theta2_angles : List ℝ) (k : ℕ) : Prop :=
  ⌊theta2_angles.getD k 0 / Real.pi⌋ ≠
      ⌊theta2_angles.getD (k + 1) 0 / Real.pi⌋ ∧
    ⌊theta2_angles.getD k 0 / Real.pi⌋ % 2 = 0

noncomputable instance (l : List ℝ) (k : ℕ) : Decidable (floorFlipAt l k) := by
  unfold floorFlipAt
  infer_instance

/-- The number of consecutive pairs satisfying claim C1's `floor` rule. -/
noncomputable def floorFlipCount (theta2_angles : List ℝ) : ℕ :=
  ((List.range (theta2_angles.length - 1)).filter fun k =>
    decide (floorFlipAt theta2_angles k)).length

/-- `count_flips(init_theta1, init_theta2, cnst)`: length of
`get_flip_points(t, sol.T[1])` where `sol.T[1]` is the `theta2` column of
the solution. -/
noncomputable def count_flips (ode : OdeSolver) (init_theta1 init_theta2 : ℝ)
    (cnst : Constants) : ℕ :=
  let ts := (get_solution ode init_theta1 init_theta2 cnst).1
  let sol := (get_solution ode init_theta1 init_theta2 cnst).2
  (get_flip_points ts (sol.map fun y => y 1)).length

/-- `get_resmap_sequential(N, cnst)`: the `N × (2N-1)` matrix with
`res_map[i, j] = count_flips(theta1s[i], theta2s[j], cnst)` for
`theta1s = linspace(0, π, N)` and `theta2s = linspace(-π, π, 2N-1)`. -/
noncomputable def get_resmap_sequential (ode : OdeSolver) (N : ℕ)
    (cnst : Constants) : List (List ℕ) :=
  (linspace 0 Real.pi N).map fun t1 =>
    (linspace (-Real.pi) Real.pi (2 * N - 1)).map fun t2 =>
      count_flips ode t1 t2 cnst

/-- The 4-tuple `(i, theta1, theta2s, cnst)` handed to each worker. -/
structure RowArgs where
  i : ℕ
  theta1 : ℝ
  theta2s : List ℝ
  cnst : Constants

/-- `row_args = [(i, theta1, theta2s, cnst) for i, theta1 in
enumerate(theta1s)]` of `get_resmap_multiproc`. -/
noncomputable def row_args (N : ℕ) (cnst : Constants) : List RowArgs :=
  (linspace 0 Real.pi N).enum.map fun p =>
    ⟨p.1, p.2, linspace (-Real.pi) Real.pi (2 * N - 1), cnst⟩

/-- `fill_row(args)` from `multiprocessing_res_map.py`: returns
`(i, [count_flips(theta1, theta2, cnst) for theta2 in theta2s])`. -/
noncomputable def fill_row (ode : OdeSolver) (a : RowArgs) : ℕ × List ℕ :=
  (a.i, a.theta2s.map fun th2 => count_flips ode a.theta1 th2 a.cnst)

/-- The order in which Python's `results.sort()` compares the collected
`(row_index, row)` tuples: lexicographic, which on pairwise-distinct row
indices is comparison of the indices. -/
def rowLe (a b : ℕ × List ℕ) : Prop := a.1 ≤ b.1

instance : DecidableRel rowLe := fun a b => Nat.decLe a.1 b.1

instance : IsTotal (ℕ × List ℕ) rowLe := ⟨fun a b => Nat.le_total a.1 b.1⟩

instance : IsTrans (ℕ × List ℕ) rowLe := ⟨fun _ _ _ h h2 => Nat.le_trans h h2⟩

/-- Strict version of `rowLe`, used for uniqueness of the sorted order. -/
def rowLt (a b : ℕ × List ℕ) : Prop := a.1 < b.1

instance : IsAntisymm (ℕ × List ℕ) rowLt :=
  ⟨fun a b h h2 => absurd (Nat.lt_trans h h2) (Nat.lt_irrefl a.1)⟩

/-- The assembly step of `get_resmap_multiproc`: `results.sort()` followed
by `[row for _, row in results]`. -/
def assemble_rows (results : List (ℕ × List ℕ)) : List (List ℕ) :=
  (List.insertionSort rowLe results).map Prod.snd

/-- `get_resmap_multiproc(N, cnst, num_processes)`: dispatch `fill_row`
over `row_args` through `Pool.map` (which returns results in task order),
sort the collected `(row_index, row)` pairs and assemble the matrix.
`num_processes` only selects the worker count and does not enter the
result. -/
noncomputable def get_resmap_multiproc (ode : OdeSolver) (N : ℕ)
    (cnst : Constants) (num_processes : ℕ) : List (List ℕ) :=
  assemble_rows ((row_args N cnst).map (fill_row ode))

/-- Modelled from the spec: exception propagation of `multiprocessing`'s
`Pool.map` (and of a Python list comprehension) — tasks are evaluated and
if any raises, the first failing task's exception propagates and no
partial list of results is produced. -/
def mapE (g : α → Except ε β) : List α → Except ε (List β)
  | [] => Except.ok []
  | a :: as =>
    match g a with
    | Except.error e => Except.error e
    | Except.ok b => (mapE g as).map fun bs => b :: bs

/-- `fill_row` when the single-cell evaluator `f` may raise: the row
computation fails as soon as any cell of the row fails. -/
def fill_rowE (f : ℝ → ℝ → Constants → Except ε ℕ) (a : RowArgs) :
    Except ε (ℕ × List ℕ) :=
  (mapE (fun th2 => f a.theta1 th2 a.cnst) a.theta2s).map fun row => (a.i, row)

/-- `get_resmap_multiproc` when the single-cell evaluator may raise:
`Pool.map` (modelled by `mapE`) either yields every row or propagates a
worker's exception, in which case no matrix is assembled. -/
noncomputable def get_resmap_multiprocE (f : ℝ → ℝ → Constants → Except ε ℕ)
    (N : ℕ) (cnst : Constants) (num_processes : ℕ) :
    Except ε (List (List ℕ)) :=
  (mapE (fill_rowE f) (row_args N cnst)).map assemble_rows

/-- A trivial concrete solver used in witnesses: the state stays at `y0`
for every sample time. -/
def odeZero : OdeSolver := fun _ y0 ts _ => ts.map fun _ => y0

/-- Constants with a non-positive mass `m1 = -1`, otherwise defaults. -/
noncomputable def badConstants : Constants := ⟨9.8, 1, 1, -1, 1, 10⟩

/-- A single-cell evaluator that raises on every cell; used to witness the
failure-propagation theorem. -/
def failEvaluator : ℝ → ℝ → Constants → Except Unit ℕ :=
  fun _ _ _ => Except.error ()

/-! ### Helper lemmas -/

lemma pytrunc_of_nonneg {x : ℝ} (h : 0 ≤ x) : pytrunc x = ⌊x⌋ := if_pos h

lemma pytrunc_of_neg {x : ℝ} (h : x < 0) : pytrunc x = ⌈x⌉ :=
  if_neg (not_le.mpr h)

lemma linspace_length (a b : ℝ) (n : ℕ) : (linspace a b n).length = n := by
  unfold linspace
  rw [List.length_map, List.length_range]

lemma linspace_getD (a b : ℝ) {n i : ℕ} (h : i < n) :
    (linspace a b n).getD i 0 = a + (i : ℝ) * (b - a) / ((n : ℝ) - 1) := by
  unfold linspace
  have hlen : i <
      ((List.range n).map fun j : ℕ => a + (j : ℝ) * (b - a) / ((n : ℝ) - 1)).length := by
    rw [List.length_map, List.length_range]
    exact h
  rw [List.getD_eq_getElem?_getD, List.getElem?_eq_getElem hlen,
    List.getElem_map, List.getElem_range]
  rfl

lemma enum_eq_range_map (d : α) (l : List α) :
    l.enum = (List.range l.length).map fun k => (k, l.getD k d) := by
  apply List.ext_getElem (by simp)
  intro i h1 h2
  have hi : i < l.length := by simpa using h1
  simp [List.getD_eq_getElem?_getD, List.getElem?_eq_getElem hi]

lemma filterMap_if_eq_map_filter {β' : Type} (f : ℕ → β') (q : ℕ → Prop)
    [DecidablePred q] (l : List ℕ) :
    (l.filterMap fun k => if q k then some (f k) else none) =
      (l.filter fun k => decide (q k)).map f := by
  induction l with
  | nil => rfl
  | cons a l ih =>
    by_cases h : q a <;> simp [List.filterMap_cons, List.filter_cons, h, ih]

lemma zip_consecutive_getD (l : List ℝ) {k : ℕ}
    (h : k < (l.dropLast.zip l.tail).length) :
    (l.dropLast.zip l.tail).getD k (0, 0) = (l.getD k 0, l.getD (k + 1) 0) := by
  have hlen : (l.dropLast.zip l.tail).length = l.length - 1 := by
    simp [List.length_zip]
  have h3 : k < l.length := by omega
  have h4 : k + 1 < l.length := by omega
  rw [List.getD_eq_getElem?_getD, List.getElem?_eq_getElem h]
  rw [List.getElem_zip]
  simp [List.getElem_dropLast, List.getElem_tail,
    List.getD_eq_getElem?_getD, List.getElem?_eq_getElem h3,
    List.getElem?_eq_getElem h4]

lemma get_flip_points_eq (times theta2_angles : List ℝ) :
    get_flip_points times theta2_angles =
      (flipIndices theta2_angles).map fun k => times.getD k 0 := by
  unfold get_flip_points flipIndices
  rw [enum_eq_range_map ((0 : ℝ), (0 : ℝ))]
  rw [List.filterMap_map]
  have hlen : (theta2_angles.dropLast.zip theta2_angles.tail).length =
      theta2_angles.length - 1 := by
    simp [List.length_zip]
  have hstep :
      ((List.range (theta2_angles.dropLast.zip theta2_angles.tail).length).filterMap
        ((fun p : ℕ × ℝ × ℝ =>
          if pytrunc (p.2.1 / Real.pi) ≠ pytrunc (p.2.2 / Real.pi) ∧
              pytrunc (p.2.1 / Real.pi) % 2 = 0 then
            some (times.getD p.1 0)
          else none) ∘
          fun k => (k, (theta2_angles.dropLast.zip theta2_angles.tail).getD k (0, 0)))) =
      ((List.range (theta2_angles.dropLast.zip theta2_angles.tail).length).filterMap
        fun k =>
          if flipAt theta2_angles k then some (times.getD k 0) else none) := by
    apply List.filterMap_congr
    intro k hk
    have hk2 : k < (theta2_angles.dropLast.zip theta2_angles.tail).length :=
      List.mem_range.mp hk
    simp only [Function.comp]
    rw [zip_consecutive_getD theta2_angles hk2]
    rfl
  rw [hstep]
  rw [filterMap_if_eq_map_filter (fun k => times.getD k 0)
    (fun k => flipAt theta2_angles k)]
  rw [hlen]

lemma flipIndices_const (c : ℝ) (l : List ℝ) (hc : ∀ x ∈ l, x = c) :
    flipIndices l = [] := by
  unfold flipIndices
  rw [List.filter_eq_nil_iff]
  intro k hk
  have hk1 : k < l.length - 1 := List.mem_range.mp hk
  have h3 : k < l.length := by omega
  have h4 : k + 1 < l.length := by omega
  have e1 : l.getD k 0 = c := by
    rw [List.getD_eq_getElem?_getD, List.getElem?_eq_getElem h3]
    exact hc _ (List.getElem_mem h3)
  have e2 : l.getD (k + 1) 0 = c := by
    rw [List.getD_eq_getElem?_getD, List.getElem?_eq_getElem h4]
    exact hc _ (List.getElem_mem h4)
  simp only [decide_eq_true_eq]
  unfold flipAt
  rw [e1, e2]
  simp

lemma count_flips_odeZero (th1 th2 : ℝ) (cnst : Constants) :
    count_flips odeZero th1 th2 cnst = 0 := by
  show (get_flip_points (get_solution odeZero th1 th2 cnst).1
    ((get_solution odeZero th1 th2 cnst).2.map fun y => y 1)).length = 0
  rw [get_flip_points_eq]
  have hc : ∀ x ∈ ((get_solution odeZero th1 th2 cnst).2.map fun y => y 1),
      x = th2 := by
    intro x hx
    simp only [get_solution, odeZero, List.map_map, List.mem_map,
      Function.comp] at hx
    obtain ⟨t, ht, rfl⟩ := hx
    simp
  rw [flipIndices_const th2 _ hc]
  simp

lemma mapE_error {ε' β' : Type} {α' : Type} (g : α' → Except ε' β')
    (l : List α') (h : ∃ a ∈ l, ∃ e, g a = Except.error e) :
    ∃ e, (∃ a ∈ l, g a = Except.error e) ∧ mapE g l = Except.error e := by
  induction l with
  | nil => simp at h
  | cons x xs ih =>
    cases hx : g x with
    | error e =>
      refine ⟨e, ⟨x, List.mem_cons_self x xs, hx⟩, ?_⟩
      simp only [mapE, hx]
    | ok b =>
      obtain ⟨a, ha, e, hae⟩ := h
      rcases List.mem_cons.mp ha with h1 | h2
      · rw [h1, hx] at hae
        cases hae
      · obtain ⟨e2, ⟨a2, ha2, he2⟩, hmap⟩ := ih ⟨a, h2, e, hae⟩
        refine ⟨e2, ⟨a2, List.mem_cons_of_mem x ha2, he2⟩, ?_⟩
        simp only [mapE, hx, hmap]
        rfl

lemma pairwise_rowLt_of_sorted_nodup {l : List (ℕ × List ℕ)}
    (hs : List.Sorted rowLe l) (hn : (l.map Prod.fst).Nodup) :
    List.Pairwise rowLt l := by
  have hne : List.Pairwise (fun a b : ℕ × List ℕ => a.1 ≠ b.1) l :=
    (List.pairwise_map).mp hn
  exact (hs.and hne).imp fun h => Nat.lt_of_le_of_ne h.1 h.2

lemma sorted_nodup_unique {l₁ l₂ : List (ℕ × List ℕ)} (hp : l₁.Perm l₂)
    (h1 : List.Sorted rowLe l₁) (h2 : List.Sorted rowLe l₂)
    (hn : (l₁.map Prod.fst).Nodup) : l₁ = l₂ :=
  List.eq_of_perm_of_sorted hp (pairwise_rowLt_of_sorted_nodup h1 hn)
    (pairwise_rowLt_of_sorted_nodup h2 ((hp.map Prod.fst).nodup_iff.mp hn))

lemma results_map_fst (ode : OdeSolver) (N : ℕ) (cnst : Constants) :
    ((row_args N cnst).map (fill_row ode)).map Prod.fst = List.range N := by
  unfold row_args fill_row
  rw [List.map_map, List.map_map, enum_eq_range_map (0 : ℝ), List.map_map,
    linspace_length]
  exact List.map_id' _

lemma results_sorted (ode : OdeSolver) (N : ℕ) (cnst : Constants) :
    List.Sorted rowLe ((row_args N cnst).map (fill_row ode)) := by
  have h := List.pairwise_le_range N
  rw [← results_map_fst ode N cnst] at h
  exact List.Pairwise.of_map Prod.fst (fun a b hab => hab) h

lemma enum_map_snd' (l : List α) : l.enum.map Prod.snd = l :=
  List.enumFrom_map_snd 0 l

lemma multiproc_eq_sequential (ode : OdeSolver) (N : ℕ) (cnst : Constants)
    (num_processes : ℕ) :
    get_resmap_multiproc ode N cnst num_processes =
      get_resmap_sequential ode N cnst := by
  unfold get_resmap_multiproc assemble_rows
  rw [List.Sorted.insertionSort_eq (results_sorted ode N cnst)]
  unfold row_args fill_row get_resmap_sequential
  rw [List.map_map, List.map_map]
  have hcomp :
      ((Prod.snd ∘
          fun a : RowArgs =>
            (a.i, a.theta2s.map fun th2 => count_flips ode a.theta1 th2 a.cnst)) ∘
        fun p : ℕ × ℝ =>
          RowArgs.mk p.1 p.2 (linspace (-Real.pi) Real.pi (2 * N - 1)) cnst) =
      ((fun t1 => (linspace (-Real.pi) Real.pi (2 * N - 1)).map fun t2 =>
          count_flips ode t1 t2 cnst) ∘ Prod.snd) := rfl
  rw [hcomp, ← List.map_map, enum_map_snd']

lemma pi_mul_div_pi (a : ℝ) : Real.pi * a / Real.pi = a := by
  rw [mul_comm]
  exact mul_div_cancel_right₀ a Real.pi_ne_zero

lemma pytrunc_c6_0 : pytrunc ((0.1 : ℝ) / Real.pi) = 0 := by
  rw [pytrunc_of_nonneg (by positivity)]
  rw [Int.floor_eq_zero_iff]
  refine ⟨by positivity, ?_⟩
  rw [div_lt_one Real.pi_pos]
  have h := Real.pi_gt_three
  linarith

lemma pytrunc_c6_1 : pytrunc (Real.pi * 0.9 / Real.pi) = 0 := by
  rw [pi_mul_div_pi, pytrunc_of_nonneg (by norm_num)]
  norm_num

lemma pytrunc_c6_2 : pytrunc (Real.pi * 1.1 / Real.pi) = 1 := by
  rw [pi_mul_div_pi, pytrunc_of_nonneg (by norm_num)]
  norm_num

lemma pytrunc_c6_3 : pytrunc (Real.pi * 2.9 / Real.pi) = 2 := by
  rw [pi_mul_div_pi, pytrunc_of_nonneg (by norm_num)]
  norm_num

lemma pytrunc_c6_4 : pytrunc (Real.pi * 3.1 / Real.pi) = 3 := by
  rw [pi_mul_div_pi, pytrunc_of_nonneg (by norm_num)]
  norm_num

lemma flipIndices_c6 :
    flipIndices [0.1, Real.pi * 0.9, Real.pi * 1.1, Real.pi * 2.9,
      Real.pi * 3.1] = [1, 3] := by
  have hA0 : ¬ flipAt [0.1, Real.pi * 0.9, Real.pi * 1.1, Real.pi * 2.9,
      Real.pi * 3.1] 0 := by
    unfold flipAt
    simp only [List.getD_cons_zero, List.getD_cons_succ]
    rw [pytrunc_c6_0, pytrunc_c6_1]
    simp
  have hA1 : flipAt [0.1, Real.pi * 0.9, Real.pi * 1.1, Real.pi * 2.9,
      Real.pi * 3.1] 1 := by
    unfold flipAt
    simp only [List.getD_cons_zero, List.getD_cons_succ]
    rw [pytrunc_c6_1, pytrunc_c6_2]
    exact ⟨by decide, by decide⟩
  have hA2 : ¬ flipAt [0.1, Real.pi * 0.9, Real.pi * 1.1, Real.pi * 2.9,
      Real.pi * 3.1] 2 := by
    unfold flipAt
    simp only [List.getD_cons_zero, List.getD_cons_succ]
    rw [pytrunc_c6_2, pytrunc_c6_3]
    intro hcon
    cases hcon.2
  have hA3 : flipAt [0.1, Real.pi * 0.9, Real.pi * 1.1, Real.pi * 2.9,
      Real.pi * 3.1] 3 := by
    unfold flipAt
    simp only [List.getD_cons_zero, List.getD_cons_succ]
    rw [pytrunc_c6_3, pytrunc_c6_4]
    exact ⟨by decide, by decide⟩
  unfold flipIndices
  rw [show ([0.1, Real.pi * 0.9, Real.pi * 1.1, Real.pi * 2.9,
    Real.pi * 3.1] : List ℝ).length - 1 = 4 from by simp]
  rw [show List.range 4 = [0, 1, 2, 3] from rfl]
  simp only [List.filter_cons, decide_eq_false hA0, decide_eq_true hA1,
    decide_eq_false hA2, decide_eq_true hA3]
  rfl

lemma div_pi_cex_0 : -(Real.pi / 2) / Real.pi = -(1 / 2 : ℝ) := by
  have hpi := Real.pi_ne_zero
  field_simp
  ring

lemma div_pi_cex_1 : -(3 * Real.pi / 2) / Real.pi = -(3 / 2 : ℝ) := by
  have hpi := Real.pi_ne_zero
  field_simp
  ring

lemma pytrunc_cex_0 : pytrunc (-(Real.pi / 2) / Real.pi) = 0 := by
  rw [div_pi_cex_0, pytrunc_of_neg (by norm_num)]
  rw [Int.ceil_eq_iff]
  constructor <;> norm_num

lemma pytrunc_cex_1 : pytrunc (-(3 * Real.pi / 2) / Real.pi) = -1 := by
  rw [div_pi_cex_1, pytrunc_of_neg (by norm_num)]
  rw [Int.ceil_eq_iff]
  constructor <;> norm_num

lemma floor_cex_0 : ⌊-(Real.pi / 2) / Real.pi⌋ = -1 := by
  rw [div_pi_cex_0, Int.floor_eq_iff]
  constructor <;> norm_num

lemma floor_cex_1 : ⌊-(3 * Real.pi / 2) / Real.pi⌋ = -2 := by
  rw [div_pi_cex_1, Int.floor_eq_iff]
  constructor <;> norm_num

lemma flipIndices_cex :
    flipIndices [-(Real.pi / 2), -(3 * Real.pi / 2)] = [0] := by
  have hA : flipAt [-(Real.pi / 2), -(3 * Real.pi / 2)] 0 := by
    unfold flipAt
    simp only [List.getD_cons_zero, List.getD_cons_succ]
    rw [pytrunc_cex_0, pytrunc_cex_1]
    exact ⟨by decide, by decide⟩
  unfold flipIndices
  rw [show ([-(Real.pi / 2), -(3 * Real.pi / 2)] : List ℝ).length - 1 = 1 from
    by simp]
  rw [show List.range 1 = [0] from rfl]
  simp only [List.filter_cons, decide_eq_true hA]
  rfl

lemma floorFlipCount_cex :
    floorFlipCount [-(Real.pi / 2), -(3 * Real.pi / 2)] = 0 := by
  have hA : ¬ floorFlipAt [-(Real.pi / 2), -(3 * Real.pi / 2)] 0 := by
    unfold floorFlipAt
    simp only [List.getD_cons_zero, List.getD_cons_succ]
    rw [floor_cex_0, floor_cex_1]
    intro hcon
    exact absurd hcon.2 (by decide)
  unfold floorFlipCount
  rw [show ([-(Real.pi / 2), -(3 * Real.pi / 2)] : List ℝ).length - 1 = 1 from
    by simp]
  rw [show List.range 1 = [0] from rfl]
  simp only [List.filter_cons, decide_eq_false hA]
  rfl

lemma getD_map_of_lt {A B : Type} (f : A → B) (l : List A) (d : B) (d2 : A)
    {i : ℕ} (h : i < l.length) :
    (l.map f).getD i d = f (l.getD i d2) := by
  rw [List.getD_eq_getElem?_getD, List.getElem?_eq_getElem (by simpa using h),
    List.getElem_map]
  rw [List.getD_eq_getElem?_getD, List.getElem?_eq_getElem h]
  rfl

lemma resmap_sequential_length (ode : OdeSolver) (N : ℕ) (cnst : Constants) :
    (get_resmap_sequential ode N cnst).length = N := by
  unfold get_resmap_sequential
  rw [List.length_map, linspace_length]

lemma resmap_sequential_row (ode : OdeSolver) (N : ℕ) (cnst : Constants)
    {i : ℕ} (hi : i < N) :
    (get_resmap_sequential ode N cnst).getD i [] =
      (linspace (-Real.pi) Real.pi (2 * N - 1)).map fun t2 =>
        count_flips ode ((linspace 0 Real.pi N).getD i 0) t2 cnst := by
  unfold get_resmap_sequential
  exact getD_map_of_lt _ _ [] 0 (by rw [linspace_length]; exact hi)

lemma resmap_sequential_odeZero (N : ℕ) (cnst : Constants) :
    get_resmap_sequential odeZero N cnst =
      List.replicate N (List.replicate (2 * N - 1) 0) := by
  unfold get_resmap_sequential
  simp only [count_flips_odeZero, List.map_const', linspace_length]

lemma fill_rowE_failEvaluator (a : RowArgs) (h : a.theta2s ≠ []) :
    fill_rowE failEvaluator a = Except.error () := by
  unfold fill_rowE
  cases hx : a.theta2s with
  | nil => exact absurd hx h
  | cons x xs =>
    simp only [mapE, failEvaluator]
    rfl

lemma row_args_ne_nil : row_args 2 defaultConstants ≠ [] := by
  intro hcon
  have h2 : (row_args 2 defaultConstants).length = 2 := by
    unfold row_args
    rw [List.length_map, List.enum_length, linspace_length]
  rw [hcon] at h2
  cases h2

lemma row_args_mem_theta2s {N : ℕ} {cnst : Constants} {a : RowArgs}
    (ha : a ∈ row_args N cnst) :
    a.theta2s = linspace (-Real.pi) Real.pi (2 * N - 1) := by
  unfold row_args at ha
  obtain ⟨p, hp, hpa⟩ := List.mem_map.mp ha
  rw [← hpa]

/-! ### Claim theorems -/

/-- Claim C1 (counterexample): on the theta2 series `[-π/2, -3π/2]` with
time stamps `[0, 1]`, `get_flip_points` records exactly one flip (Python
`int()` truncates `-1/2` to `0`, which is even), while the claim's `floor`
rule counts zero flips (`⌊-1/2⌋ = -1` is odd); so the returned flip count
does not equal the number of floor-rule pairs. -/
theorem flip_rule_floor_counterexample :
    (get_flip_points [0, 1] [-(Real.pi / 2), -(3 * Real.pi / 2)]).length ≠
      floorFlipCount [-(Real.pi / 2), -(3 * Real.pi / 2)] ∧
    (get_flip_points [0, 1] [-(Real.pi / 2), -(3 * Real.pi / 2)]).length = 1 ∧
    floorFlipCount [-(Real.pi / 2), -(3 * Real.pi / 2)] = 0 := by
  have h1 : (get_flip_points [0, 1]
      [-(Real.pi / 2), -(3 * Real.pi / 2)]).length = 1 := by
    rw [get_flip_points_eq, flipIndices_cex]
    rfl
  refine ⟨?_, h1, floorFlipCount_cex⟩
  rw [h1, floorFlipCount_cex]
  decide

/-- Claim C1 (amended): for every theta2 sample series and matching time
series, `get_flip_points` records a flip for the consecutive pair
`(t2[k], t2[k+1])` exactly when the Python `int()` truncations toward zero
of `t2[k]/π` and `t2[k+1]/π` differ and the former truncation is even
(the claim's `floor` must be read as truncation toward zero, which differs
from floor on negative angles), recording it at time `t[k]`; the list of
recorded flips is exactly the flip indices mapped to their times. -/
theorem flip_rule_trunc_characterization (times theta2_angles : List ℝ)
    (k : ℕ) (h : times.length = theta2_angles.length) :
    get_flip_points times theta2_angles =
      (flipIndices theta2_angles).map (fun j => times.getD j 0) ∧
    (k ∈ flipIndices theta2_angles ↔
      k + 1 < theta2_angles.length ∧ flipAt theta2_angles k) := by
  refine ⟨get_flip_points_eq times theta2_angles, ?_⟩
  have hmem : k ∈ flipIndices theta2_angles ↔
      k < theta2_angles.length - 1 ∧ flipAt theta2_angles k := by
    unfold flipIndices
    rw [List.mem_filter, List.mem_range, decide_eq_true_eq]
  rw [hmem]
  constructor
  · rintro ⟨h1, h2⟩
    exact ⟨by omega, h2⟩
  · rintro ⟨h1, h2⟩
    exact ⟨by omega, h2⟩

/-- Witness for the amended claim C1 at the concrete series `[0, 0]` with
time stamps `[0, 1]` and pair index `0`. -/
theorem flip_rule_trunc_characterization_witness :
    ([0, 1] : List ℝ).length = ([0, 0] : List ℝ).length ∧
    (get_flip_points [0, 1] [0, 0] =
      (flipIndices [0, 0]).map (fun j => ([0, 1] : List ℝ).getD j 0) ∧
    (0 ∈ flipIndices [0, 0] ↔
      0 + 1 < ([0, 0] : List ℝ).length ∧ flipAt [0, 0] 0)) :=
  ⟨by simp, flip_rule_trunc_characterization [0, 1] [0, 0] 0 (by simp)⟩

/-- Claim C2: for every grid resolution, every constants value and every
pool size, the parallel grid builder returns the same matrix,
cell-for-cell, as the sequential grid builder (for every abstract ODE
solver). -/
theorem parallel_grid_matches_sequential_grid (ode : OdeSolver) (N : ℕ)
    (cnst : Constants) (num_processes : ℕ) :
    get_resmap_multiproc ode N cnst num_processes =
      get_resmap_sequential ode N cnst :=
  multiproc_eq_sequential ode N cnst num_processes

/-- Claim C6: on the synthetic theta2 series
`[0.1, π*0.9, π*1.1, π*2.9, π*3.1]` with any matching time stamps, the
flip detector returns exactly 2 flips (bands 0→1 and 2→3 count, band
1→2 does not). -/
theorem synthetic_series_flip_count (times : List ℝ)
    (h : times.length = 5) :
    (get_flip_points times
      [0.1, Real.pi * 0.9, Real.pi * 1.1, Real.pi * 2.9,
        Real.pi * 3.1]).length = 2 := by
  rw [get_flip_points_eq, flipIndices_c6]
  rfl

/-- Witness for claim C6 at time stamps `[0, 1, 2, 3, 4]`. -/
theorem synthetic_series_flip_count_witness :
    ([0, 1, 2, 3, 4] : List ℝ).length = 5 ∧
    (get_flip_points [0, 1, 2, 3, 4]
      [0.1, Real.pi * 0.9, Real.pi * 1.1, Real.pi * 2.9,
        Real.pi * 3.1]).length = 2 :=
  ⟨by simp, synthetic_series_flip_count [0, 1, 2, 3, 4] (by simp)⟩

/-- Claim C3: for every grid resolution `N ≥ 2` and all constants, the
sequential grid builder returns a matrix of shape `(N, 2N-1)` whose cell
`(i, j)` is the single-cell evaluator at
`theta1 = linspace(0, π, N)[i]`, `theta2 = linspace(-π, π, 2N-1)[j]`
(for every abstract ODE solver). -/
theorem sequential_grid_shape_and_cells (ode : OdeSolver) (N : ℕ)
    (cnst : Constants) (i j : ℕ) (hN : 2 ≤ N) (hi : i < N)
    (hj : j < 2 * N - 1) :
    (get_resmap_sequential ode N cnst).length = N ∧
    ((get_resmap_sequential ode N cnst).getD i []).length = 2 * N - 1 ∧
    ((get_resmap_sequential ode N cnst).getD i []).getD j 0 =
      count_flips ode ((linspace 0 Real.pi N).getD i 0)
        ((linspace (-Real.pi) Real.pi (2 * N - 1)).getD j 0) cnst := by
  refine ⟨resmap_sequential_length ode N cnst, ?_, ?_⟩
  · rw [resmap_sequential_row ode N cnst hi, List.length_map, linspace_length]
  · rw [resmap_sequential_row ode N cnst hi]
    exact getD_map_of_lt _ _ 0 0 (by rw [linspace_length]; exact hj)

/-- Witness for claim C3 at `N = 2`, default constants, the trivial
solver, and cell `(1, 2)`. -/
theorem sequential_grid_shape_and_cells_witness :
    (2 ≤ 2 ∧ 1 < 2 ∧ 2 < 2 * 2 - 1) ∧
    ((get_resmap_sequential odeZero 2 defaultConstants).length = 2 ∧
    ((get_resmap_sequential odeZero 2 defaultConstants).getD 1 []).length =
      2 * 2 - 1 ∧
    ((get_resmap_sequential odeZero 2 defaultConstants).getD 1 []).getD 2 0 =
      count_flips odeZero ((linspace 0 Real.pi 2).getD 1 0)
        ((linspace (-Real.pi) Real.pi (2 * 2 - 1)).getD 2 0)
        defaultConstants) :=
  ⟨⟨by norm_num, by norm_num, by norm_num⟩,
    sequential_grid_shape_and_cells odeZero 2 defaultConstants 1 2
      (by norm_num) (by norm_num) (by norm_num)⟩

/-- Claim C4: if some worker-side row computation fails during parallel
grid construction, the whole grid computation fails: `Pool.map` (modelled
by `mapE`) propagates a failing row's error and
`get_resmap_multiprocE` returns that error instead of any matrix. -/
theorem worker_failure_aborts_grid (ε : Type)
    (f : ℝ → ℝ → Constants → Except ε ℕ) (N : ℕ) (cnst : Constants)
    (num_processes : ℕ)
    (h : ∃ a ∈ row_args N cnst, ∃ e, fill_rowE f a = Except.error e) :
    ∃ e, (∃ a ∈ row_args N cnst, fill_rowE f a = Except.error e) ∧
      get_resmap_multiprocE f N cnst num_processes = Except.error e := by
  obtain ⟨e, he, hmap⟩ := mapE_error (fill_rowE f) (row_args N cnst) h
  refine ⟨e, he, ?_⟩
  unfold get_resmap_multiprocE
  rw [hmap]
  rfl

/-- Witness for claim C4: with an evaluator that raises on every cell,
`N = 2` and default constants, the parallel builder surfaces the error. -/
theorem worker_failure_aborts_grid_witness :
    (∃ a ∈ row_args 2 defaultConstants, ∃ e,
      fill_rowE failEvaluator a = Except.error e) ∧
    ∃ e, (∃ a ∈ row_args 2 defaultConstants,
        fill_rowE failEvaluator a = Except.error e) ∧
      get_resmap_multiprocE failEvaluator 2 defaultConstants 4 =
        Except.error e := by
  have hmem : ∃ a ∈ row_args 2 defaultConstants, ∃ e,
      fill_rowE failEvaluator a = Except.error e := by
    obtain ⟨a, ha⟩ := List.exists_mem_of_ne_nil _ row_args_ne_nil
    refine ⟨a, ha, (), ?_⟩
    apply fill_rowE_failEvaluator
    rw [row_args_mem_theta2s ha]
    intro hcon
    have hlen := congrArg List.length hcon
    rw [linspace_length] at hlen
    exact absurd hlen (by norm_num)
  exact ⟨hmem,
    worker_failure_aborts_grid Unit failEvaluator 2 defaultConstants 4 hmem⟩

/-- Claim C5 (counterexample): the grid builder performs no parameter
validation: called with the non-positive mass `m1 = -1` it is not
rejected, but computes and returns the full `2 × 3` grid (here under the
trivial solver, where every cell evaluates to 0). -/
theorem invalid_constants_not_rejected_counterexample :
    badConstants.m1 ≤ 0 ∧
    get_resmap_sequential odeZero 2 badConstants = [[0, 0, 0], [0, 0, 0]] := by
  constructor
  · norm_num [badConstants]
  · rw [resmap_sequential_odeZero]
    rfl

/-- Claim C5 (amended): neither builder validates the physical constants:
for every constants value with a non-positive length or mass, the
sequential grid builder still performs the computation and returns a fully
populated `N × (2N-1)` matrix (no fail-fast rejection exists in the code;
only a non-positive pool size or a non-positive `N` happens to fail inside
the numpy/multiprocessing library calls). -/
theorem grid_computed_despite_invalid_constants (ode : OdeSolver) (N : ℕ)
    (cnst : Constants) (i : ℕ)
    (hbad : cnst.l1 ≤ 0 ∨ cnst.l2 ≤ 0 ∨ cnst.m1 ≤ 0 ∨ cnst.m2 ≤ 0)
    (hi : i < N) :
    (get_resmap_sequential ode N cnst).length = N ∧
    ((get_resmap_sequential ode N cnst).getD i []).length = 2 * N - 1 := by
  refine ⟨resmap_sequential_length ode N cnst, ?_⟩
  rw [resmap_sequential_row ode N cnst hi, List.length_map, linspace_length]

/-- Witness for the amended claim C5 at `N = 2`, `m1 = -1`, row `1`. -/
theorem grid_computed_despite_invalid_constants_witness :
    (badConstants.l1 ≤ 0 ∨ badConstants.l2 ≤ 0 ∨ badConstants.m1 ≤ 0 ∨
      badConstants.m2 ≤ 0) ∧ 1 < 2 ∧
    ((get_resmap_sequential odeZero 2 badConstants).length = 2 ∧
    ((get_resmap_sequential odeZero 2 badConstants).getD 1 []).length =
      2 * 2 - 1) :=
  ⟨Or.inr (Or.inr (Or.inl (by norm_num [badConstants]))), by norm_num,
    grid_computed_despite_invalid_constants odeZero 2 badConstants 1
      (Or.inr (Or.inr (Or.inl (by norm_num [badConstants])))) (by norm_num)⟩

/-- Claim C7: for every constants value and every initial angle pair, the
state integrator is invoked with initial state `[th1, th2, 0, 0]` (both
angular velocities 0), and the trajectory's time axis is exactly 201
equally spaced sample points `t_i = i*T_final/200` running from `0` to
`T_final` inclusive (for every abstract ODE solver). -/
theorem trajectory_sampling_contract (ode : OdeSolver) (th1 th2 : ℝ)
    (cnst : Constants) (i : ℕ) (hi : i < 200) :
    (get_solution ode th1 th2 cnst).1.length = 201 ∧
    (get_solution ode th1 th2 cnst).1.getD i 0 =
      (i : ℝ) * cnst.T_final / 200 ∧
    (get_solution ode th1 th2 cnst).1.getD (i + 1) 0 -
      (get_solution ode th1 th2 cnst).1.getD i 0 = cnst.T_final / 200 ∧
    (get_solution ode th1 th2 cnst).1.getD 0 0 = 0 ∧
    (get_solution ode th1 th2 cnst).1.getD 200 0 = cnst.T_final ∧
    (get_solution ode th1 th2 cnst).2 =
      ode right_hand_side ![th1, th2, 0, 0] (get_solution ode th1 th2 cnst).1
        cnst := by
  have h1 : (get_solution ode th1 th2 cnst).1 =
      linspace 0 cnst.T_final 201 := rfl
  have hgen : ∀ j : ℕ, j < 201 →
      (get_solution ode th1 th2 cnst).1.getD j 0 =
        (j : ℝ) * cnst.T_final / 200 := by
    intro j hj
    rw [h1, linspace_getD 0 cnst.T_final hj]
    norm_num
  refine ⟨by rw [h1]; exact linspace_length 0 cnst.T_final 201,
    hgen i (by omega), ?_, ?_, ?_, rfl⟩
  · rw [hgen i (by omega), hgen (i + 1) (by omega)]
    push_cast
    ring
  · rw [hgen 0 (by omega)]
    norm_num
  · rw [hgen 200 (by omega)]
    push_cast
    ring

/-- Witness for claim C7 at the trivial solver, zero initial angles,
default constants and sample index `5`. -/
theorem trajectory_sampling_contract_witness :
    5 < 200 ∧
    ((get_solution odeZero 0 0 defaultConstants).1.length = 201 ∧
    (get_solution odeZero 0 0 defaultConstants).1.getD 5 0 =
      ((5 : ℕ) : ℝ) * defaultConstants.T_final / 200 ∧
    (get_solution odeZero 0 0 defaultConstants).1.getD (5 + 1) 0 -
      (get_solution odeZero 0 0 defaultConstants).1.getD 5 0 =
        defaultConstants.T_final / 200 ∧
    (get_solution odeZero 0 0 defaultConstants).1.getD 0 0 = 0 ∧
    (get_solution odeZero 0 0 defaultConstants).1.getD 200 0 =
      defaultConstants.T_final ∧
    (get_solution odeZero 0 0 defaultConstants).2 =
      odeZero right_hand_side ![0, 0, 0, 0]
        (get_solution odeZero 0 0 defaultConstants).1 defaultConstants) :=
  ⟨by norm_num,
    trajectory_sampling_contract odeZero 0 0 defaultConstants 5 (by norm_num)⟩

/-- Claim C8: for every list of collected `(row_index, row)` pairs whose
row indices are exactly `0..N-1` (pairwise distinct), the assembly step of
the parallel grid builder (sort, then strip the indices) produces the same
matrix for every permutation (completion order) of the collected list, and
row `i` of the assembled matrix is the row that was computed for row
index `i`. -/
theorem assembly_completion_order_invariant (N : ℕ)
    (results results2 : List (ℕ × List ℕ)) (i : ℕ) (row : List ℕ)
    (hperm : results2.Perm results)
    (hkeys : (results.map Prod.fst).Perm (List.range N))
    (hmem : (i, row) ∈ results) :
    assemble_rows results2 = assemble_rows results ∧
    (assemble_rows results).getD i [] = row := by
  have hnodup : (results.map Prod.fst).Nodup :=
    hkeys.nodup_iff.mpr (List.nodup_range N)
  constructor
  · unfold assemble_rows
    congr 1
    apply sorted_nodup_unique
    · exact (List.perm_insertionSort rowLe results2).trans
        (hperm.trans (List.perm_insertionSort rowLe results).symm)
    · exact List.sorted_insertionSort rowLe results2
    · exact List.sorted_insertionSort rowLe results
    · exact (((List.perm_insertionSort rowLe results2).map Prod.fst).trans
        (hperm.map Prod.fst)).nodup_iff.mpr hnodup
  · have hs : List.Sorted rowLe (List.insertionSort rowLe results) :=
      List.sorted_insertionSort rowLe results
    have hsp : (List.insertionSort rowLe results).Perm results :=
      List.perm_insertionSort rowLe results
    have hfst : (List.insertionSort rowLe results).map Prod.fst =
        List.range N := by
      have hsorted :
          List.Pairwise (fun a b : ℕ => a ≤ b)
            ((List.insertionSort rowLe results).map Prod.fst) :=
        List.Pairwise.map Prod.fst (fun a b hab => hab) hs
      exact List.eq_of_perm_of_sorted ((hsp.map Prod.fst).trans hkeys)
        hsorted (List.pairwise_le_range N)
    have hmem_s : (i, row) ∈ List.insertionSort rowLe results :=
      hsp.mem_iff.mpr hmem
    obtain ⟨k, hk, hks⟩ := List.getElem_of_mem hmem_s
    have hNlen : results.length = N := by
      have h := hkeys.length_eq
      rwa [List.length_map, List.length_range] at h
    have hslen : (List.insertionSort rowLe results).length = results.length :=
      hsp.length_eq
    have hklen : k < ((List.insertionSort rowLe results).map Prod.fst).length := by
      rw [List.length_map]
      exact hk
    have hkN : k < N := by omega
    have h2 : ((List.insertionSort rowLe results).map Prod.fst)[k]? = some i := by
      rw [List.getElem?_eq_getElem hklen, List.getElem_map, hks]
    rw [hfst, List.getElem?_range hkN] at h2
    have hik : i = k := by
      injection h2 with h3
      omega
    subst hik
    unfold assemble_rows
    rw [getD_map_of_lt Prod.snd _ [] ((0 : ℕ), ([] : List ℕ)) hk]
    rw [List.getD_eq_getElem?_getD, List.getElem?_eq_getElem hk, hks]
    rfl

/-- Witness for claim C8: `N = 2`, collected list `[(1,[5]), (0,[7])]`,
its permutation `[(0,[7]), (1,[5])]`, and row index `0`. -/
theorem assembly_completion_order_invariant_witness :
    (([(0, [7]), (1, [5])] : List (ℕ × List ℕ)).Perm [(1, [5]), (0, [7])] ∧
    (([(1, [5]), (0, [7])] : List (ℕ × List ℕ)).map Prod.fst).Perm
      (List.range 2) ∧
    ((0 : ℕ), ([7] : List ℕ)) ∈ ([(1, [5]), (0, [7])] : List (ℕ × List ℕ))) ∧
    (assemble_rows [(0, [7]), (1, [5])] = assemble_rows [(1, [5]), (0, [7])] ∧
    (assemble_rows [(1, [5]), (0, [7])]).getD 0 [] = [7]) := by
  have h1 : (([(0, [7]), (1, [5])] : List (ℕ × List ℕ)).Perm
      [(1, [5]), (0, [7])]) := List.Perm.swap (1, [5]) (0, [7]) []
  have h2 : ((([(1, [5]), (0, [7])] : List (ℕ × List ℕ)).map Prod.fst).Perm
      (List.range 2)) := List.Perm.swap 0 1 []
  have h3 : ((0 : ℕ), ([7] : List ℕ)) ∈
      ([(1, [5]), (0, [7])] : List (ℕ × List ℕ)) := by simp
  exact ⟨⟨h1, h2, h3⟩,
    assembly_completion_order_invariant 2 [(1, [5]), (0, [7])]
      [(0, [7]), (1, [5])] 0 [7] h1 h2 h3⟩

/-- Claim C9: for every state vector and constants with `m1 > 0`,
`l1 > 0`, `l2 > 0` and `m2 ≥ 0`, both denominators of the ODE right-hand
side, `l1*(2*m1+m2-m2*cos(2*th1-2*th2))` and
`l2*(2*m1+m2-m2*cos(2*th1-2*th2))`, are strictly positive, so neither
division in `right_hand_side` divides by zero. -/
theorem rhs_denominators_positive (y : Fin 4 → ℝ) (cnst : Constants)
    (hm1 : 0 < cnst.m1) (hl1 : 0 < cnst.l1) (hl2 : 0 < cnst.l2)
    (hm2 : 0 ≤ cnst.m2) :
    0 < denom1 y cnst ∧ 0 < denom2 y cnst := by
  have hcos : Real.cos (2 * y 0 - 2 * y 1) ≤ 1 := Real.cos_le_one _
  have hcommon : 0 < denomCommon y cnst := by
    show 0 < 2 * cnst.m1 + cnst.m2 - cnst.m2 * Real.cos (2 * y 0 - 2 * y 1)
    nlinarith [mul_le_mul_of_nonneg_left hcos hm2]
  exact ⟨mul_pos hl1 hcommon, mul_pos hl2 hcommon⟩

/-- Witness for claim C9 at the zero state and default constants. -/
theorem rhs_denominators_positive_witness :
    (0 < defaultConstants.m1 ∧ 0 < defaultConstants.l1 ∧
      0 < defaultConstants.l2 ∧ 0 ≤ defaultConstants.m2) ∧
    (0 < denom1 ![0, 0, 0, 0] defaultConstants ∧
      0 < denom2 ![0, 0, 0, 0] defaultConstants) :=
  ⟨⟨by norm_num [defaultConstants], by norm_num [defaultConstants],
      by norm_num [defaultConstants], by norm_num [defaultConstants]⟩,
    rhs_denominators_positive ![0, 0, 0, 0] defaultConstants
      (by norm_num [defaultConstants]) (by norm_num [defaultConstants])
      (by norm_num [defaultConstants]) (by norm_num [defaultConstants])⟩

/-- Claim C10: iterating a `Constants` value yields exactly its six fields
in the order `g, l1, l2, m1, m2, T_final`, and `right_hand_side`, which
destructures the iterator in that order, coincides with the version that
reads each physical constant directly from the field of the same name. -/
theorem constants_iter_order_matches_destructuring :
    (∀ c : Constants, c.iter = [c.g, c.l1, c.l2, c.m1, c.m2, c.T_final]) ∧
    ∀ (y : Fin 4 → ℝ) (t : ℝ) (c : Constants),
      right_hand_side y t c = right_hand_side_by_fields y t c :=
  ⟨fun _ => rfl, fun _ _ _ => rfl⟩
